import Mathlib

/-!
Verification of the cp949/mui utility layer.

This file gives a shallow embedding of the hard parts of the library:

* the lodash-style `debounce` utility (`src/unnamed/part_017`), modelled as an
  explicit state machine over integer timestamps, together with a reference
  model of the lodash 4.17 debounce algorithm that the spec says the utility
  directly ports;
* the storage helpers `getSnapshot` / `setValue`
  (`src/sub/mui/src/persistence/useStorageState.tsx`);
* the JSON codecs (`CODEC_JSON`, `CODEC_JSON_STRICT`) and the
  `useSessionStorage` initializer;
* the `useClipboard` hook state transitions;
* the `CooldownButtonBase` click/cooldown state machine;
* the eventemitter3-style `EventEmitter` (`src/unnamed/part_034`) and the
  `Closables` cleanup collector (`src/sub/mui/src/util/event-utils.ts`).

Timestamps are embedded as `Int` (JavaScript `Date.now()` values), argument
tuples and listener functions as opaque `Nat` identities, and fallible
platform primitives (`Storage`, `JSON.parse`, the clipboard) as explicit
`Except`-valued parameters.
-/

/-- Closure state of a debounced function, one field per mutable variable of
`debounce` in `src/unnamed/part_017` (`lastThis` is not modelled: the `this`
binding travels together with `lastArgs` and never influences control flow).
`timer = some d` models `timerId !== undefined` with the pending `setTimeout`
callback due at absolute time `d`.  `invocations` is a ghost log recording
`(time, args)` for every call of `invokeFunc`, so that theorems can speak
about when the wrapped function actually ran. -/
structure DebState where
  lastArgs : Option Nat
  lastInvokeTime : Int
  lastCallTime : Option Int
  result : Option Nat
  timer : Option Int
  invocations : List (Int × Option Nat)
  deriving Repr, DecidableEq

/-- Configuration of a debounced function: the `wait` argument and the
`leading`, `trailing`, `maxWait` options.  `maxWaitOpt = none` means the
`maxWait` property was not supplied. -/
structure DebConfig where
  wait : Int
  leading : Bool
  trailing : Bool
  maxWaitOpt : Option Int
  deriving Repr, DecidableEq

/-- Initial closure state of a freshly constructed debounced function:
`lastInvokeTime = 0`, everything else undefined. -/
def DebState.init : DebState :=
  { lastArgs := none, lastInvokeTime := 0, lastCallTime := none,
    result := none, timer := none, invocations := [] }

namespace Mui

/-- Effective `maxWait`: `if (typeof userMaxWait === 'number') maxWait =
Math.max(userMaxWait, wait)` (part_017 lines 108-110). -/
def effMaxWait (cfg : DebConfig) : Option Int :=
  match cfg.maxWaitOpt with
  | some userMaxWait => some (max userMaxWait cfg.wait)
  | none => none

/-- Embedding of `invokeFunc(time)`: consume `lastArgs`, set
`lastInvokeTime`, compute and store `result = func.apply(thisArg, args)`.
The wrapped function is `f : Option Nat → Nat` so that a call with
`lastArgs === undefined` is still meaningful. -/
def invokeFunc (f : Option Nat → Nat) (s : DebState) (time : Int) : Nat × DebState :=
  let args := s.lastArgs
  let r := f args
  (r, { s with
        lastArgs := none, lastInvokeTime := time, result := some r,
        invocations := s.invocations ++ [(time, args)] })

/-- Embedding of `leadingEdge(time)`: record the invoke time, start the wait
timer, and invoke only when `leading` is set. -/
def leadingEdge (cfg : DebConfig) (f : Option Nat → Nat) (s : DebState) (time : Int) :
    Option Nat × DebState :=
  let s := { s with lastInvokeTime := time, timer := some (time + cfg.wait) }
  if cfg.leading then
    let (r, s) := invokeFunc f s time
    (some r, s)
  else (s.result, s)

/-- Embedding of `remainingWait(time)`.  The source reads
`time - (lastCallTime || 0)`; `lastCallTime` is always defined when a timer
is pending, which is the only situation in which this runs. -/
def remainingWait (cfg : DebConfig) (s : DebState) (time : Int) : Int :=
  let timeSinceLastCall := time - s.lastCallTime.getD 0
  let timeSinceLastInvoke := time - s.lastInvokeTime
  let timeWaiting := cfg.wait - timeSinceLastCall
  match effMaxWait cfg with
  | some maxWait => min timeWaiting (maxWait - timeSinceLastInvoke)
  | none => timeWaiting

/-- Embedding of `shouldInvoke(time)` (part_017 lines 158-168). -/
def shouldInvoke (cfg : DebConfig) (s : DebState) (time : Int) : Bool :=
  let timeSinceLastCall := time - s.lastCallTime.getD 0
  let timeSinceLastInvoke := time - s.lastInvokeTime
  s.lastCallTime.isNone || timeSinceLastCall ≥ cfg.wait || timeSinceLastCall < 0 ||
    (match effMaxWait cfg with
     | some maxWait => timeSinceLastInvoke ≥ maxWait
     | none => false)

/-- Embedding of `trailingEdge(time)` (part_017 lines 184-193):
clear the timer; if `trailing` is set and arguments are stored, invoke;
otherwise drop the stored arguments and return the last result. -/
def trailingEdge (cfg : DebConfig) (f : Option Nat → Nat) (s : DebState) (time : Int) :
    Option Nat × DebState :=
  let s := { s with timer := none }
  if cfg.trailing && s.lastArgs.isSome then
    let (r, s) := invokeFunc f s time
    (some r, s)
  else (s.result, { s with lastArgs := none })

/-- Embedding of `timerExpired()` running at absolute time `time`: perform
the trailing edge if due, otherwise restart the timer for the remaining
wait.  The return value (of `trailingEdge`) is discarded by the browser. -/
def timerExpired (cfg : DebConfig) (f : Option Nat → Nat) (s : DebState) (time : Int) :
    Option Nat × DebState :=
  if shouldInvoke cfg s time then
    trailingEdge cfg f s time
  else
    (none, { s with timer := some (time + remainingWait cfg s time) })

/-- Embedding of `cancel()` (part_017 lines 198-207): clear the pending
timer and reset `lastInvokeTime`, `lastArgs`, `lastCallTime`, `timerId`.
(`result` is deliberately kept, as in the source.) -/
def cancel (s : DebState) : DebState :=
  { s with timer := none, lastInvokeTime := 0, lastArgs := none, lastCallTime := none }

/-- Embedding of `flush()` running at absolute time `time` (part_017 lines
212-214): `timerId === undefined ? result : trailingEdge(now())`. -/
def flush (cfg : DebConfig) (f : Option Nat → Nat) (s : DebState) (time : Int) :
    Option Nat × DebState :=
  match s.timer with
  | none => (s.result, s)
  | some _ => trailingEdge cfg f s time

/-- Embedding of the `debounced(...)` body (part_017 lines 219-244) for a
call at absolute time `time` with argument identity `args`. -/
def debounced (cfg : DebConfig) (f : Option Nat → Nat) (s : DebState) (time : Int)
    (args : Nat) : Option Nat × DebState :=
  let isInvoking := shouldInvoke cfg s time
  let s := { s with lastArgs := some args, lastCallTime := some time }
  if isInvoking then
    if s.timer.isNone then
      leadingEdge cfg f s time
    else
      match effMaxWait cfg with
      | some _ =>
        let s := { s with timer := some (time + cfg.wait) }
        let (r, s) := invokeFunc f s time
        (some r, s)
      | none =>
        -- falls through: timerId is defined, so only `return result` remains
        (s.result, s)
  else
    if s.timer.isNone then
      (s.result, { s with timer := some (time + cfg.wait) })
    else
      (s.result, s)

end Mui

namespace LodashRef

/-- Modelled from the spec: the utility "directly ports the well-known
lodash debounce algorithm".  This namespace renders the lodash 4.17
`debounce` reference algorithm over the same state type, to be compared
with the repository's port.  `maxing` is lodash's `'maxWait' in options`
flag; a `maxWait` property holding `undefined` is treated as absent. -/
def maxing (cfg : DebConfig) : Bool :=
  cfg.maxWaitOpt.isSome

/-- Lodash reference: `maxWait = nativeMax(toNumber(options.maxWait) || 0,
wait)`, only meaningful when `maxing` holds. -/
def maxWaitVal (cfg : DebConfig) : Int :=
  max (cfg.maxWaitOpt.getD 0) cfg.wait

/-- Lodash reference `invokeFunc(time)`. -/
def invokeFunc (f : Option Nat → Nat) (s : DebState) (time : Int) : Nat × DebState :=
  let args := s.lastArgs
  let r := f args
  (r, { s with
        lastArgs := none, lastInvokeTime := time, result := some r,
        invocations := s.invocations ++ [(time, args)] })

/-- Lodash reference `leadingEdge(time)`. -/
def leadingEdge (cfg : DebConfig) (f : Option Nat → Nat) (s : DebState) (time : Int) :
    Option Nat × DebState :=
  let s := { s with lastInvokeTime := time, timer := some (time + cfg.wait) }
  if cfg.leading then
    let (r, s) := invokeFunc f s time
    (some r, s)
  else (s.result, s)

/-- Lodash reference `remainingWait(time)`.  Lodash reads `time -
lastCallTime` outright; `lastCallTime` is always defined when a timer is
pending, which is the only situation in which `remainingWait` runs, so the
`getD 0` default is never observable. -/
def remainingWait (cfg : DebConfig) (s : DebState) (time : Int) : Int :=
  let timeSinceLastCall := time - s.lastCallTime.getD 0
  let timeSinceLastInvoke := time - s.lastInvokeTime
  let timeWaiting := cfg.wait - timeSinceLastCall
  if maxing cfg then min timeWaiting (maxWaitVal cfg - timeSinceLastInvoke)
  else timeWaiting

/-- Lodash reference `shouldInvoke(time)`.  When `lastCallTime ===
undefined` the first disjunct short-circuits the result to `true`, so the
`NaN` arithmetic of the remaining disjuncts is unobservable and the match
below is faithful. -/
def shouldInvoke (cfg : DebConfig) (s : DebState) (time : Int) : Bool :=
  match s.lastCallTime with
  | none => true
  | some lastCall =>
    let timeSinceLastCall := time - lastCall
    let timeSinceLastInvoke := time - s.lastInvokeTime
    timeSinceLastCall ≥ cfg.wait || timeSinceLastCall < 0 ||
      (maxing cfg && timeSinceLastInvoke ≥ maxWaitVal cfg)

/-- Lodash reference `trailingEdge(time)`. -/
def trailingEdge (cfg : DebConfig) (f : Option Nat → Nat) (s : DebState) (time : Int) :
    Option Nat × DebState :=
  let s := { s with timer := none }
  if cfg.trailing && s.lastArgs.isSome then
    let (r, s) := invokeFunc f s time
    (some r, s)
  else (s.result, { s with lastArgs := none })

/-- Lodash reference `timerExpired()` at absolute time `time`. -/
def timerExpired (cfg : DebConfig) (f : Option Nat → Nat) (s : DebState) (time : Int) :
    Option Nat × DebState :=
  if shouldInvoke cfg s time then
    trailingEdge cfg f s time
  else
    (none, { s with timer := some (time + remainingWait cfg s time) })

/-- Lodash reference `cancel()`. -/
def cancel (s : DebState) : DebState :=
  { s with timer := none, lastInvokeTime := 0, lastArgs := none, lastCallTime := none }

/-- Lodash reference `flush()` at absolute time `time`. -/
def flush (cfg : DebConfig) (f : Option Nat → Nat) (s : DebState) (time : Int) :
    Option Nat × DebState :=
  match s.timer with
  | none => (s.result, s)
  | some _ => trailingEdge cfg f s time

/-- Lodash reference `debounced(...)` body: on the maxing path lodash does
`clearTimeout(timerId); timerId = setTimeout(timerExpired, wait); return
invokeFunc(lastCallTime)`. -/
def debounced (cfg : DebConfig) (f : Option Nat → Nat) (s : DebState) (time : Int)
    (args : Nat) : Option Nat × DebState :=
  let isInvoking := shouldInvoke cfg s time
  let s := { s with lastArgs := some args, lastCallTime := some time }
  if isInvoking then
    if s.timer.isNone then
      leadingEdge cfg f s time
    else if maxing cfg then
      let s := { s with timer := some (time + cfg.wait) }
      let (r, s) := invokeFunc f s time
      (some r, s)
    else
      (s.result, s)
  else
    if s.timer.isNone then
      (s.result, { s with timer := some (time + cfg.wait) })
    else
      (s.result, s)

end LodashRef

/-- Both models compute the same effective maxWait gate. -/
theorem effMaxWait_eq_lodash (cfg : DebConfig) :
    Mui.effMaxWait cfg = if LodashRef.maxing cfg then some (LodashRef.maxWaitVal cfg) else none := by
  cases h : cfg.maxWaitOpt <;>
    simp [Mui.effMaxWait, LodashRef.maxing, LodashRef.maxWaitVal, h]

theorem invokeFunc_eq_lodash : Mui.invokeFunc = LodashRef.invokeFunc := rfl

theorem shouldInvoke_eq_lodash (cfg : DebConfig) (s : DebState) (time : Int) :
    Mui.shouldInvoke cfg s time = LodashRef.shouldInvoke cfg s time := by
  cases h : s.lastCallTime <;>
    cases hm : cfg.maxWaitOpt <;>
      simp [Mui.shouldInvoke, LodashRef.shouldInvoke, Mui.effMaxWait,
        LodashRef.maxing, LodashRef.maxWaitVal, h, hm]

theorem remainingWait_eq_lodash (cfg : DebConfig) (s : DebState) (time : Int) :
    Mui.remainingWait cfg s time = LodashRef.remainingWait cfg s time := by
  cases hm : cfg.maxWaitOpt <;>
    simp [Mui.remainingWait, LodashRef.remainingWait, Mui.effMaxWait,
      LodashRef.maxing, LodashRef.maxWaitVal, hm]

theorem leadingEdge_eq_lodash : Mui.leadingEdge = LodashRef.leadingEdge := rfl

theorem trailingEdge_eq_lodash : Mui.trailingEdge = LodashRef.trailingEdge := rfl

theorem timerExpired_eq_lodash (cfg : DebConfig) (f : Option Nat → Nat) (s : DebState)
    (time : Int) : Mui.timerExpired cfg f s time = LodashRef.timerExpired cfg f s time := by
  simp only [Mui.timerExpired, LodashRef.timerExpired, shouldInvoke_eq_lodash,
    remainingWait_eq_lodash, trailingEdge_eq_lodash]

theorem cancel_eq_lodash : Mui.cancel = LodashRef.cancel := rfl

theorem flush_eq_lodash : Mui.flush = LodashRef.flush := rfl

theorem debounced_eq_lodash (cfg : DebConfig) (f : Option Nat → Nat) (s : DebState)
    (time : Int) (args : Nat) :
    Mui.debounced cfg f s time args = LodashRef.debounced cfg f s time args := by
  simp only [Mui.debounced, LodashRef.debounced, shouldInvoke_eq_lodash]
  cases hm : cfg.maxWaitOpt <;>
    simp [Mui.effMaxWait, LodashRef.maxing, hm, LodashRef.leadingEdge, Mui.leadingEdge,
      Mui.invokeFunc, LodashRef.invokeFunc]

/-- A debounce implementation packaged as the four entry points the outside
world can trigger: a call of the debounced function, `cancel`, `flush`, and
the expiry of the pending `setTimeout` callback. -/
structure DebMachine where
  call : DebState → Int → Nat → Option Nat × DebState
  cancelFn : DebState → DebState
  flushFn : DebState → Int → Option Nat × DebState
  fire : DebState → Int → DebState

/-- The repository's debounce, as a machine. -/
def muiMachine (cfg : DebConfig) (f : Option Nat → Nat) : DebMachine :=
  { call := Mui.debounced cfg f,
    cancelFn := Mui.cancel,
    flushFn := Mui.flush cfg f,
    fire := fun s t => (Mui.timerExpired cfg f s t).2 }

/-- The lodash reference, as a machine. -/
def lodashMachine (cfg : DebConfig) (f : Option Nat → Nat) : DebMachine :=
  { call := LodashRef.debounced cfg f,
    cancelFn := LodashRef.cancel,
    flushFn := LodashRef.flush cfg f,
    fire := fun s t => (LodashRef.timerExpired cfg f s t).2 }

theorem muiMachine_eq_lodashMachine (cfg : DebConfig) (f : Option Nat → Nat) :
    muiMachine cfg f = lodashMachine cfg f := by
  have hc : Mui.debounced cfg f = LodashRef.debounced cfg f := by
    funext s t a; exact debounced_eq_lodash cfg f s t a
  have hf : (fun s t => (Mui.timerExpired cfg f s t).2) =
      (fun s t => (LodashRef.timerExpired cfg f s t).2) := by
    funext s t; exact congrArg Prod.snd (timerExpired_eq_lodash cfg f s t)
  simp only [muiMachine, lodashMachine, cancel_eq_lodash, flush_eq_lodash, hc, hf]

/-- Fire the pending timer (if due by time `t`) repeatedly, with explicit
fuel.  Each expiry either clears the timer or reschedules it strictly
later, so the fuel chosen in `fireTimers` always suffices. -/
def fireTimersFuel (fire : DebState → Int → DebState) (t : Int) :
    Nat → DebState → DebState
  | 0, s => s
  | Nat.succ k, s =>
    match s.timer with
    | some d => if d ≤ t then fireTimersFuel fire t k (fire s d) else s
    | none => s

/-- Let the pending `setTimeout` callback run (at its scheduled instant) as
long as it is due on or before time `t`. -/
def fireTimers (fire : DebState → Int → DebState) (t : Int) (s : DebState) : DebState :=
  match s.timer with
  | some d => fireTimersFuel fire t ((t - d).toNat + 1) s
  | none => s

/-- External stimulus of a debounced function. -/
inductive DebEvent where
  | call (args : Nat)
  | cancelEv
  | flushEv
  deriving Repr, DecidableEq

/-- Deliver one timestamped event, after first letting any due timer fire.
Returns the value the caller of the debounced function observes (for
`cancel`, which returns `undefined`, it returns `none`). -/
def stepEvent (m : DebMachine) (s : DebState) (t : Int) : DebEvent → Option Nat × DebState
  | DebEvent.call args => m.call (fireTimers m.fire t s) t args
  | DebEvent.cancelEv => (none, m.cancelFn (fireTimers m.fire t s))
  | DebEvent.flushEv => m.flushFn (fireTimers m.fire t s) t

/-- Run a timestamped event trace from a state, then let timers run until
`endTime`; collects the observed return values. -/
def runTrace (m : DebMachine) : DebState → List (Int × DebEvent) → Int →
    List (Option Nat) × DebState
  | s, [], endTime => ([], fireTimers m.fire endTime s)
  | s, (t, e) :: evs, endTime =>
    let (r, s') := stepEvent m s t e
    let (rs, sEnd) := runTrace m s' evs endTime
    (r :: rs, sEnd)

/-- Claim C1: the repository's `debounce` is a faithful port of the lodash
debounce reference algorithm: for every wait value and combination of the
`leading`, `trailing` and `maxWait` options, every wrapped function, and
every finite timestamped sequence of calls, `cancel`s and `flush`es, the
two machines return the same results and end in the same state — in
particular the ghost `invocations` log shows the wrapped function invoked
at the same times with the same (most recent) arguments. -/
theorem debounce_refines_lodash (cfg : DebConfig) (f : Option Nat → Nat)
    (evs : List (Int × DebEvent)) (endTime : Int) :
    runTrace (muiMachine cfg f) DebState.init evs endTime =
      runTrace (lodashMachine cfg f) DebState.init evs endTime := by
  rw [muiMachine_eq_lodashMachine]

/-- Claim C2 (amended): with `options.maxWait` supplied the effective bound
is `max(maxWait, wait)`, and whenever the debounced function is called at a
time `t` with `t - lastInvokeTime` at least that bound *while a timer is
pending* (`timerId` defined), `shouldInvoke` returns true and the `maxWait`
branch invokes the wrapped function synchronously at `t` with the most
recent arguments, returning its result. -/
theorem debounce_maxWait_invokes_immediately (cfg : DebConfig) (f : Option Nat → Nat)
    (s : DebState) (t : Int) (args : Nat) (m : Int)
    (hm : cfg.maxWaitOpt = some m)
    (ht : s.timer.isSome = true)
    (hinv : t - s.lastInvokeTime ≥ max m cfg.wait) :
    Mui.effMaxWait cfg = some (max m cfg.wait) ∧
    Mui.shouldInvoke cfg s t = true ∧
    (Mui.debounced cfg f s t args).2.invocations = s.invocations ++ [(t, some args)] ∧
    (Mui.debounced cfg f s t args).1 = some (f (some args)) := by
  have heff : Mui.effMaxWait cfg = some (max m cfg.wait) := by
    simp [Mui.effMaxWait, hm]
  have hsi : Mui.shouldInvoke cfg s t = true := by
    simp only [Mui.shouldInvoke, heff, Bool.or_eq_true, decide_eq_true_eq]
    right
    exact hinv
  obtain ⟨d, hd⟩ := Option.isSome_iff_exists.mp ht
  refine ⟨heff, hsi, ?_, ?_⟩ <;>
    simp [Mui.debounced, hsi, hd, heff, Mui.invokeFunc]

/-- Concrete instantiation of `debounce_maxWait_invokes_immediately`:
`wait = 1`, `maxWait = 5`, a timer pending, last invocation at time 0 and a
call at time 6 with argument 2. -/
theorem debounce_maxWait_invokes_immediately_witness :
    Mui.shouldInvoke { wait := 1, leading := false, trailing := true, maxWaitOpt := some 5 }
      { lastArgs := some 1, lastInvokeTime := 0, lastCallTime := some 10, result := none,
        timer := some 11, invocations := [] } 6 = true ∧
    (Mui.debounced { wait := 1, leading := false, trailing := true, maxWaitOpt := some 5 }
      (fun a => a.getD 0 + 1)
      { lastArgs := some 1, lastInvokeTime := 0, lastCallTime := some 10, result := none,
        timer := some 11, invocations := [] } 6 2).2.invocations = [(6, some 2)] ∧
    (Mui.debounced { wait := 1, leading := false, trailing := true, maxWaitOpt := some 5 }
      (fun a => a.getD 0 + 1)
      { lastArgs := some 1, lastInvokeTime := 0, lastCallTime := some 10, result := none,
        timer := some 11, invocations := [] } 6 2).1 = some 3 := by
  have h := debounce_maxWait_invokes_immediately
    { wait := 1, leading := false, trailing := true, maxWaitOpt := some 5 }
    (fun a => a.getD 0 + 1)
    { lastArgs := some 1, lastInvokeTime := 0, lastCallTime := some 10, result := none,
      timer := some 11, invocations := [] } 6 2 5 rfl rfl (by decide)
  exact ⟨h.2.1, h.2.2.1, h.2.2.2⟩

/-- Claim C2 fails as originally stated: with `leading` false and no timer
pending (for instance on the very first call), a call at time 10 with
`10 - lastInvokeTime = 10 ≥ 5 = max(maxWait, wait)` does not invoke the
wrapped function at all — `leadingEdge` merely schedules the wait timer. -/
theorem debounce_maxWait_immediate_counterexample :
    (10 : Int) - DebState.init.lastInvokeTime ≥
        max (5 : Int) (1 : Int) ∧
    (Mui.debounced { wait := 1, leading := false, trailing := true, maxWaitOpt := some 5 }
      (fun a => a.getD 0 + 1) DebState.init 10 2).2.invocations = [] := by
  constructor
  · decide
  · rfl

/-- Operations that can reach a debounced function without calling it
again: `flush()` at some time, or browser timer expiry up to some time. -/
inductive IdleOp where
  | flushAt (t : Int)
  | fireAt (t : Int)
  deriving Repr, DecidableEq

/-- Run a sequence of idle operations (no further calls of the debounced
function) on a state. -/
def runIdle (cfg : DebConfig) (f : Option Nat → Nat) : DebState → List IdleOp → DebState
  | s, [] => s
  | s, IdleOp.flushAt t :: ops => runIdle cfg f (Mui.flush cfg f s t).2 ops
  | s, IdleOp.fireAt t :: ops =>
    runIdle cfg f (fireTimers (fun s' u => (Mui.timerExpired cfg f s' u).2) t s) ops

/-- A state with no pending timer is a fixed point of every idle
operation: `flush` returns the stored result unchanged and there is no
timer to fire. -/
theorem runIdle_no_timer (cfg : DebConfig) (f : Option Nat → Nat) (s : DebState)
    (h : s.timer = none) : ∀ ops : List IdleOp, runIdle cfg f s ops = s := by
  intro ops
  induction ops with
  | nil => rfl
  | cons op ops ih =>
    cases op with
    | flushAt t => simpa [runIdle, Mui.flush, h] using ih
    | fireAt t => simpa [runIdle, fireTimers, h] using ih

/-- Claim C3: after `cancel()` the pending timer (if any) is cleared and
`lastArgs`, `lastCallTime`, `lastInvokeTime` and `timerId` are reset
(`lastThis` travels with `lastArgs` and is not modelled separately), and no
trailing invocation ever fires: any sequence of `flush`es and timer
expiries leaves the cancelled state — and in particular its invocation
log — unchanged, until the debounced function itself is called again. -/
theorem debounce_cancel_spec (cfg : DebConfig) (f : Option Nat → Nat) (s : DebState)
    (ops : List IdleOp) :
    (Mui.cancel s).timer = none ∧ (Mui.cancel s).lastArgs = none ∧
    (Mui.cancel s).lastCallTime = none ∧ (Mui.cancel s).lastInvokeTime = 0 ∧
    runIdle cfg f (Mui.cancel s) ops = Mui.cancel s ∧
    (runIdle cfg f (Mui.cancel s) ops).invocations = s.invocations := by
  refine ⟨rfl, rfl, rfl, rfl, runIdle_no_timer cfg f _ rfl ops, ?_⟩
  rw [runIdle_no_timer cfg f _ rfl ops]
  rfl

/-- Claim C4: `flush()` with no pending timer returns the last stored
result without invoking and without touching the state; with a pending
timer it performs the trailing edge at once: the timer state is cleared in
every case, and if `trailing` is set and arguments are stored the wrapped
function is invoked with the most recent arguments and its result
returned, otherwise the stored result is returned without invoking. -/
theorem debounce_flush_spec (cfg : DebConfig) (f : Option Nat → Nat) (s : DebState)
    (t : Int) :
    (s.timer = none → Mui.flush cfg f s t = (s.result, s)) ∧
    (s.timer.isSome = true →
      (Mui.flush cfg f s t).2.timer = none ∧
      (∀ a, cfg.trailing = true → s.lastArgs = some a →
        (Mui.flush cfg f s t).1 = some (f (some a)) ∧
        (Mui.flush cfg f s t).2.invocations = s.invocations ++ [(t, some a)]) ∧
      ((cfg.trailing = false ∨ s.lastArgs = none) →
        (Mui.flush cfg f s t).1 = s.result ∧
        (Mui.flush cfg f s t).2.invocations = s.invocations)) := by
  constructor
  · intro h
    simp [Mui.flush, h]
  · intro h
    obtain ⟨d, hd⟩ := Option.isSome_iff_exists.mp h
    refine ⟨?_, ?_, ?_⟩
    · rcases htr : cfg.trailing with _ | _ <;>
        rcases ha : s.lastArgs with _ | a <;>
          simp [Mui.flush, hd, Mui.trailingEdge, Mui.invokeFunc, htr, ha]
    · intro a htr ha
      constructor <;> simp [Mui.flush, hd, Mui.trailingEdge, Mui.invokeFunc, htr, ha]
    · intro hcase
      rcases hcase with htr | ha
      · constructor <;> simp [Mui.flush, hd, Mui.trailingEdge, Mui.invokeFunc, htr]
      · rcases htr : cfg.trailing with _ | _ <;>
          constructor <;> simp [Mui.flush, hd, Mui.trailingEdge, Mui.invokeFunc, htr, ha]

/-- Concrete instantiation of `debounce_flush_spec`: a pending timer with
stored argument 4 and `trailing` enabled flushes to `f 4 = 5` and clears
the timer; a state without a timer is returned unchanged. -/
theorem debounce_flush_spec_witness :
    (Mui.flush { wait := 3, leading := false, trailing := true, maxWaitOpt := none }
      (fun a => a.getD 0 + 1)
      { lastArgs := some 4, lastInvokeTime := 0, lastCallTime := some 7, result := some 9,
        timer := some 10, invocations := [] } 8).1 = some 5 ∧
    (Mui.flush { wait := 3, leading := false, trailing := true, maxWaitOpt := none }
      (fun a => a.getD 0 + 1)
      { lastArgs := some 4, lastInvokeTime := 0, lastCallTime := some 7, result := some 9,
        timer := some 10, invocations := [] } 8).2.timer = none ∧
    Mui.flush { wait := 3, leading := false, trailing := true, maxWaitOpt := none }
      (fun a => a.getD 0 + 1) DebState.init 8 = (DebState.init.result, DebState.init) := by
  have h := debounce_flush_spec { wait := 3, leading := false, trailing := true, maxWaitOpt := none }
    (fun a => a.getD 0 + 1)
    { lastArgs := some 4, lastInvokeTime := 0, lastCallTime := some 7, result := some 9,
      timer := some 10, invocations := [] } 8
  have h0 := debounce_flush_spec { wait := 3, leading := false, trailing := true, maxWaitOpt := none }
    (fun a => a.getD 0 + 1) DebState.init 8
  exact ⟨((h.2 rfl).2.1 4 rfl rfl).1, (h.2 rfl).1, h0.1 rfl⟩

/-- A Web Storage area as seen by `useStorageState.tsx`: each primitive
either succeeds or throws (private-mode restrictions are modelled by
`Except.error`).  `getItemResult` returns `none` for a missing key. -/
structure StorageArea where
  getItemResult : String → Except Unit (Option String)
  setItemResult : String → String → Except Unit Unit
  removeItemResult : String → Except Unit Unit

/-- Embedding of `getSnapshot(area, key)` (useStorageState.tsx lines
101-112): `null` for a null key, `area.getItem(key)` otherwise, with a
thrown exception swallowed into `null`. -/
def getSnapshot (area : StorageArea) (key : Option String) : Option String :=
  match key with
  | none => none
  | some k =>
    match area.getItemResult k with
    | Except.ok v => v
    | Except.error _ => none

/-- Embedding of `setValue(area, key, value)` (useStorageState.tsx lines
122-138).  The returned Boolean is whether `emitCurrentTabStorageChange`
ran; the `Except` layer records whether the function itself threw — the
source catches every storage exception and returns early, so the result is
always `Except.ok`. -/
def setValue (area : StorageArea) (key : Option String) (value : Option String) :
    Except Unit Bool :=
  match key with
  | none => Except.ok false
  | some k =>
    match (match value with
           | none => area.removeItemResult k
           | some v => area.setItemResult k v) with
    | Except.error _ => Except.ok false
    | Except.ok _ => Except.ok true

/-- Claim C5: storage access failures are swallowed.  `getSnapshot`
returns `null` (never propagates) when `getItem` throws; `setValue` never
throws, and when `setItem` or `removeItem` throws it returns without
emitting the current-tab change notification, so subscribers observe no
change on a failed write. -/
theorem storage_failures_swallowed (area : StorageArea) (key : String) :
    (area.getItemResult key = Except.error () → getSnapshot area (some key) = none) ∧
    (∀ value, ∃ emitted, setValue area (some key) value = Except.ok emitted) ∧
    (∀ v, area.setItemResult key v = Except.error () →
      setValue area (some key) (some v) = Except.ok false) ∧
    (area.removeItemResult key = Except.error () →
      setValue area (some key) none = Except.ok false) := by
  refine ⟨fun h => by simp [getSnapshot, h], fun value => ?_, fun v h => by simp [setValue, h],
    fun h => by simp [setValue, h]⟩
  rcases value with _ | v
  · cases h : area.removeItemResult key
    · exact ⟨false, by simp [setValue, h]⟩
    · exact ⟨true, by simp [setValue, h]⟩
  · cases h : area.setItemResult key v
    · exact ⟨false, by simp [setValue, h]⟩
    · exact ⟨true, by simp [setValue, h]⟩

/-- A storage area in private mode: every primitive throws. -/
def privateModeArea : StorageArea :=
  { getItemResult := fun _ => Except.error (),
    setItemResult := fun _ _ => Except.error (),
    removeItemResult := fun _ => Except.error () }

/-- Concrete instantiation of `storage_failures_swallowed` on a storage
area whose every primitive throws. -/
theorem storage_failures_swallowed_witness :
    getSnapshot privateModeArea (some "k") = none ∧
    setValue privateModeArea (some "k") (some "v") = Except.ok false ∧
    setValue privateModeArea (some "k") none = Except.ok false := by
  have h := storage_failures_swallowed privateModeArea "k"
  exact ⟨h.1 rfl, h.2.2.1 "v" rfl, h.2.2.2 rfl⟩

/-- JSON values, the result type of the platform `JSON.parse`. -/
inductive JsonVal where
  | null
  | bool (b : Bool)
  | num (n : Int)
  | str (s : String)
  | arr (xs : List JsonVal)
  | obj (fields : List (String × JsonVal))

/-- The platform `JSON.parse` primitive, abstractly: it either returns a
JSON value or throws a `SyntaxError`. -/
def JsonParseFn : Type := String → Except Unit JsonVal

/-- Embedding of `CODEC_JSON.parse` (part_019 lines 120-127): `JSON.parse`
inside `try`, with any exception swallowed into `null`. -/
def CODEC_JSON_parse (jsonParse : JsonParseFn) (value : String) : JsonVal :=
  match jsonParse value with
  | Except.ok v => v
  | Except.error _ => JsonVal.null

/-- Embedding of `CODEC_JSON_STRICT.parse` (part_019 lines 149-151): bare
`JSON.parse`, exceptions propagate. -/
def CODEC_JSON_STRICT_parse (jsonParse : JsonParseFn) (value : String) :
    Except Unit JsonVal :=
  jsonParse value

/-- Embedding of the `useSessionStorage` initializer
(useSessionStorage.ts lines 35-54) with default options, whose
deserializer is bare `JSON.parse`: read the stored string and parse it; on
a missing key optionally write the serialized initial value back; any
exception — from storage or from parsing — is caught and the initial value
returned.  The `setItemResult` argument is the outcome of the write-back,
which cannot change the returned value. -/
def useSessionStorageInit (jsonParse : JsonParseFn)
    (getItemResult : Except Unit (Option String)) (initialValue : Option JsonVal)
    (setItemResult : Except Unit Unit) : Option JsonVal :=
  match getItemResult with
  | Except.error _ => initialValue
  | Except.ok none =>
    match initialValue, setItemResult with
    | some _, Except.error _ => initialValue
    | some _, Except.ok _ => initialValue
    | none, _ => initialValue
  | Except.ok (some s) =>
    match jsonParse s with
    | Except.error _ => initialValue
    | Except.ok v => some v

/-- Claim C6 fails as stated: on a malformed document (here a `JSON.parse`
that throws, as it does on any invalid JSON text) `CODEC_JSON_STRICT.parse`
propagates the exception instead of yielding `null`, and the
`useSessionStorage` initializer falls back to the supplied initial value
`7`, not to `null`. -/
theorem json_null_fallback_counterexample :
    CODEC_JSON_STRICT_parse (fun _ => Except.error ()) "not json" = Except.error () ∧
    useSessionStorageInit (fun _ => Except.error ()) (Except.ok (some "not json"))
      (some (JsonVal.num 7)) (Except.ok ()) = some (JsonVal.num 7) := by
  exact ⟨rfl, rfl⟩

/-- Claim C6 (amended): malformed JSON falls back to `null` in the
`CODEC_JSON` codec only — for every parse failure it yields `null` and for
valid JSON the parsed value; `CODEC_JSON_STRICT` propagates the parse
outcome (exceptions included) unchanged; and the `useSessionStorage`
initializer catches the parse exception and falls back to the supplied
initial value rather than `null`. -/
theorem json_null_fallback (jsonParse : JsonParseFn) (s : String) :
    (jsonParse s = Except.error () → CODEC_JSON_parse jsonParse s = JsonVal.null) ∧
    (∀ v, jsonParse s = Except.ok v → CODEC_JSON_parse jsonParse s = v) ∧
    CODEC_JSON_STRICT_parse jsonParse s = jsonParse s ∧
    (∀ init setr, jsonParse s = Except.error () →
      useSessionStorageInit jsonParse (Except.ok (some s)) init setr = init) := by
  refine ⟨fun h => by simp [CODEC_JSON_parse, h], fun v h => by simp [CODEC_JSON_parse, h],
    rfl, fun init setr h => by simp [useSessionStorageInit, h]⟩

/-- Concrete instantiation of `json_null_fallback` on a parse function
that fails on the empty string and succeeds on "1". -/
theorem json_null_fallback_witness :
    CODEC_JSON_parse (fun v => if v = "1" then Except.ok (JsonVal.num 1) else Except.error ())
      "" = JsonVal.null ∧
    CODEC_JSON_parse (fun v => if v = "1" then Except.ok (JsonVal.num 1) else Except.error ())
      "1" = JsonVal.num 1 ∧
    useSessionStorageInit
      (fun v => if v = "1" then Except.ok (JsonVal.num 1) else Except.error ())
      (Except.ok (some "")) (some (JsonVal.str "d")) (Except.ok ()) = some (JsonVal.str "d") := by
  have hbad := json_null_fallback
    (fun v => if v = "1" then Except.ok (JsonVal.num 1) else Except.error ()) ""
  have hgood := json_null_fallback
    (fun v => if v = "1" then Except.ok (JsonVal.num 1) else Except.error ()) "1"
  exact ⟨hbad.1 (by simp), hgood.2.1 (JsonVal.num 1) (by simp),
    hbad.2.2.2 (some (JsonVal.str "d")) (Except.ok ()) (by simp)⟩

/-- State of the `useClipboard` hook (useThrottledValue.ts lines 177-226):
the `error`, `copied` and `copyTimeout` React states.  `copyTimeout = some
d` models a pending `setTimeout` due at absolute time `d` that will set
`copied` back to false. -/
structure ClipboardState where
  error : Option String
  copied : Bool
  copyTimeout : Option Int
  deriving Repr, DecidableEq

/-- Initial state of the hook. -/
def ClipboardState.init : ClipboardState :=
  { error := none, copied := false, copyTimeout := none }

/-- How a `copy(value)` call can resolve: `navigator.clipboard` missing,
`writeText` rejecting with an error, or `writeText` resolving. -/
inductive ClipboardOutcome where
  | notAvailable
  | writeFail (msg : String)
  | writeOk
  deriving Repr, DecidableEq

/-- Embedding of `handleCopyResult(value)` at absolute time `t`: clear the
old revert timer, start a new one due after `timeout`, set `copied`. -/
def handleCopyResult (timeout t : Int) (value : Bool) (s : ClipboardState) :
    ClipboardState :=
  { s with copyTimeout := some (t + timeout), copied := value }

/-- Embedding of the `copy(valueToCopy)` function at absolute time `t`:
the three branches never throw — both failure branches only call
`setError`. -/
def clipboardCopy (timeout : Int) (outcome : ClipboardOutcome) (t : Int)
    (s : ClipboardState) : ClipboardState :=
  match outcome with
  | ClipboardOutcome.notAvailable =>
    { s with error := some "useClipboard: navigator.clipboard is not supported" }
  | ClipboardOutcome.writeFail msg => { s with error := some msg }
  | ClipboardOutcome.writeOk => handleCopyResult timeout t true s

/-- The revert timer started by `handleCopyResult` firing:
`setCopied(false)`. -/
def clipboardTimerFire (s : ClipboardState) : ClipboardState :=
  { s with copied := false }

/-- Claim C7: `copy` never raises (every branch is a plain state update);
when `navigator.clipboard` is unavailable or `writeText` rejects, the
error state is set and `copied` is left untouched (so it stays false);
`copied` becomes true only when `writeText` resolves, in which case the
revert timer is scheduled for `t + timeout` and its expiry sets `copied`
back to false. -/
theorem useClipboard_copy_spec (timeout t : Int) (s : ClipboardState)
    (outcome : ClipboardOutcome) :
    (outcome = ClipboardOutcome.notAvailable →
      (clipboardCopy timeout outcome t s).error.isSome = true ∧
      (clipboardCopy timeout outcome t s).copied = s.copied) ∧
    (∀ msg, outcome = ClipboardOutcome.writeFail msg →
      (clipboardCopy timeout outcome t s).error = some msg ∧
      (clipboardCopy timeout outcome t s).copied = s.copied) ∧
    (outcome = ClipboardOutcome.writeOk →
      (clipboardCopy timeout outcome t s).copied = true ∧
      (clipboardCopy timeout outcome t s).copyTimeout = some (t + timeout) ∧
      (clipboardTimerFire (clipboardCopy timeout outcome t s)).copied = false) ∧
    ((clipboardCopy timeout outcome t s).copied = true →
      s.copied = true ∨ outcome = ClipboardOutcome.writeOk) := by
  refine ⟨fun h => ?_, fun msg h => ?_, fun h => ?_, fun h => ?_⟩
  · subst h; exact ⟨rfl, rfl⟩
  · subst h; exact ⟨rfl, rfl⟩
  · subst h; exact ⟨rfl, rfl, rfl⟩
  · cases outcome with
    | notAvailable => exact Or.inl h
    | writeFail msg => exact Or.inl h
    | writeOk => exact Or.inr rfl

/-- Concrete instantiation of `useClipboard_copy_spec`: from the initial
state, a rejected `writeText` surfaces the message and leaves `copied`
false; a resolved one sets `copied` and schedules the revert at `10 + 2`. -/
theorem useClipboard_copy_spec_witness :
    (clipboardCopy 2 (ClipboardOutcome.writeFail "denied") 10 ClipboardState.init).error
        = some "denied" ∧
    (clipboardCopy 2 (ClipboardOutcome.writeFail "denied") 10 ClipboardState.init).copied
        = ClipboardState.init.copied ∧
    (clipboardCopy 2 ClipboardOutcome.writeOk 10 ClipboardState.init).copied = true ∧
    (clipboardCopy 2 ClipboardOutcome.writeOk 10 ClipboardState.init).copyTimeout
        = some (10 + 2) := by
  have hfail := useClipboard_copy_spec 2 10 ClipboardState.init
    (ClipboardOutcome.writeFail "denied")
  have hok := useClipboard_copy_spec 2 10 ClipboardState.init ClipboardOutcome.writeOk
  exact ⟨(hfail.2.1 "denied" rfl).1, (hfail.2.1 "denied" rfl).2,
    (hok.2.2.1 rfl).1, (hok.2.2.1 rfl).2.1⟩

/-- Props of `CooldownButtonBase` that affect its click behaviour:
`cooldownOpt = none` means the `cooldown` prop was omitted (default 1000),
`hasOnClick` whether an `onClick` handler was supplied, `disabledProp` the
`disabled` prop. -/
structure CooldownProps where
  cooldownOpt : Option Int
  hasOnClick : Bool
  disabledProp : Bool
  deriving Repr, DecidableEq

/-- The effective cooldown duration: `cooldown = 1000` by default
(CooldownButtonBase.tsx line 44). -/
def cooldownMs (p : CooldownProps) : Int :=
  p.cooldownOpt.getD 1000

/-- Component state of `CooldownButtonBase`: the `isCooldown` React state
and the pending `setTimeout` (due at the recorded absolute time) that will
reset it. -/
structure CooldownState where
  isCooldown : Bool
  timer : Option Int
  deriving Repr, DecidableEq

/-- Initial component state. -/
def CooldownState.init : CooldownState :=
  { isCooldown := false, timer := none }

/-- The `disabled` attribute the component renders:
`disabled={disabled || isCooldown}` (CooldownButtonBase.tsx line 63). -/
def renderedDisabled (p : CooldownProps) (s : CooldownState) : Bool :=
  p.disabledProp || s.isCooldown

/-- Embedding of `handleClick` (CooldownButtonBase.tsx lines 50-56) at
absolute time `t`: if not in cooldown and an `onClick` is provided, invoke
it, enter cooldown and schedule its end after `cooldown` milliseconds.
Returns whether `onClick` was invoked. -/
def handleClick (p : CooldownProps) (s : CooldownState) (t : Int) :
    Bool × CooldownState :=
  if !s.isCooldown && p.hasOnClick then
    (true, { isCooldown := true, timer := some (t + cooldownMs p) })
  else
    (false, s)

/-- A genuine browser click on the rendered button at time `t`: a button
rendered with `disabled` set does not receive click events, otherwise
`handleClick` runs. -/
def clickAt (p : CooldownProps) (s : CooldownState) (t : Int) : Bool × CooldownState :=
  if renderedDisabled p s then (false, s) else handleClick p s t

/-- The cooldown `setTimeout` firing once due:
`setTimeout(() => setIsCooldown(false), cooldown)`. -/
def fireCooldownTimer (t : Int) (s : CooldownState) : CooldownState :=
  match s.timer with
  | some d => if d ≤ t then { isCooldown := false, timer := none } else s
  | none => s

/-- Deliver a sequence of timestamped clicks to the component, letting the
cooldown timer fire first whenever it is due; returns the times at which
`onClick` was invoked. -/
def runClicks (p : CooldownProps) : CooldownState → List Int → List Int
  | _, [] => []
  | s, t :: ts =>
    let s1 := fireCooldownTimer t (s : CooldownState)
    let r := clickAt p s1 t
    if r.1 then t :: runClicks p r.2 ts else runClicks p r.2 ts

/-- The claimed behaviour, stated directly: a click is accepted exactly
when no cooldown window is open; an accepted click at `t` opens a window
until `t + c`. -/
def acceptedClicks (c : Int) : Option Int → List Int → List Int
  | _, [] => []
  | none, t :: ts => t :: acceptedClicks c (some (t + c)) ts
  | some d, t :: ts =>
    if t < d then acceptedClicks c (some d) ts else t :: acceptedClicks c (some (t + c)) ts

/-- With a handler supplied and the `disabled` prop unset, the component
accepts exactly the clicks outside an open cooldown window. -/
theorem runClicks_eq_acceptedClicks (p : CooldownProps) (h1 : p.hasOnClick = true)
    (h2 : p.disabledProp = false) :
    ∀ (ts : List Int) (s : CooldownState) (od : Option Int),
      (s.isCooldown = false ∧ s.timer = none ∧ od = none) ∨
        (∃ d, s.isCooldown = true ∧ s.timer = some d ∧ od = some d) →
      runClicks p s ts = acceptedClicks (cooldownMs p) od ts := by
  intro ts
  induction ts with
  | nil =>
    intro s od _
    cases od <;> rfl
  | cons t ts ih =>
    intro s od hrel
    rcases hrel with ⟨hc, htm, hod⟩ | ⟨d, hc, htm, hod⟩
    · subst hod
      have hs : s = CooldownState.init := by
        cases s; simp_all [CooldownState.init]
      subst hs
      simp only [runClicks, acceptedClicks, fireCooldownTimer, clickAt, renderedDisabled,
        handleClick, h1, h2, CooldownState.init]
      simp only [Bool.or_self, Bool.not_false, Bool.and_self, if_true, if_false,
        Bool.false_or, reduceIte]
      exact congrArg (t :: ·) (ih _ (some (t + cooldownMs p)) (Or.inr ⟨_, rfl, rfl, rfl⟩))
    · subst hod
      have hs : s = { isCooldown := true, timer := some d } := by
        cases s; simp_all
      subst hs
      by_cases hdt : d ≤ t
      · have hlt : ¬ t < d := by omega
        simp only [runClicks, acceptedClicks, fireCooldownTimer, hdt, if_true, clickAt,
          renderedDisabled, handleClick, h1, h2, hlt, if_false, Bool.false_or,
          Bool.not_false, Bool.and_self, reduceIte]
        exact congrArg (t :: ·) (ih _ (some (t + cooldownMs p)) (Or.inr ⟨_, rfl, rfl, rfl⟩))
      · have hlt : t < d := by omega
        simp only [runClicks, acceptedClicks, fireCooldownTimer, hdt, if_false, clickAt,
          renderedDisabled, handleClick, h1, h2, hlt, if_true, Bool.or_true, reduceIte]
        exact ih _ (some d) (Or.inr ⟨_, rfl, rfl, rfl⟩)

/-- With the `disabled` prop set, or without an `onClick` handler, no click
is ever accepted and the state never changes. -/
theorem runClicks_rejected (p : CooldownProps)
    (h : p.disabledProp = true ∨ p.hasOnClick = false) :
    ∀ (ts : List Int) (s : CooldownState), runClicks p s ts = [] := by
  intro ts
  induction ts with
  | nil => intro s; rfl
  | cons t ts ih =>
    intro s
    rcases h with hd | hc
    · simp only [runClicks, clickAt, renderedDisabled, hd, Bool.true_or, if_true, reduceIte]
      exact ih _
    · by_cases hrd : renderedDisabled p (fireCooldownTimer t s) = true
      · simp only [runClicks, clickAt, hrd, if_true, reduceIte]
        exact ih _
      · simp only [runClicks, clickAt, hrd, Bool.not_eq_true, if_false, handleClick, hc,
          Bool.and_false, reduceIte]
        exact ih _

/-- Claim C8: the cooldown button suppresses repeated activation.  The
default cooldown is 1000 ms; a click accepted by `handleClick` invokes
`onClick` (exactly the one `onClick(event)` call of the source), enters a
cooldown during which the button renders disabled, ending `cooldown`
milliseconds later; over any click sequence the accepted clicks are
exactly those outside an open cooldown window, and no click is ever
accepted while the `disabled` prop is set or no handler is supplied. -/
theorem cooldown_button_spec (p : CooldownProps) (ts : List Int) :
    (p.cooldownOpt = none → cooldownMs p = 1000) ∧
    (∀ (s : CooldownState) (t : Int), (clickAt p s t).1 = true →
      (clickAt p s t).2.isCooldown = true ∧
      renderedDisabled p (clickAt p s t).2 = true ∧
      (clickAt p s t).2.timer = some (t + cooldownMs p)) ∧
    (p.hasOnClick = true → p.disabledProp = false →
      runClicks p CooldownState.init ts = acceptedClicks (cooldownMs p) none ts) ∧
    ((p.disabledProp = true ∨ p.hasOnClick = false) →
      runClicks p CooldownState.init ts = []) := by
  refine ⟨fun h => by simp [cooldownMs, h], fun s t h => ?_,
    fun h1 h2 => runClicks_eq_acceptedClicks p h1 h2 ts CooldownState.init none
      (Or.inl ⟨rfl, rfl, rfl⟩),
    fun h => runClicks_rejected p h ts CooldownState.init⟩
  by_cases hrd : renderedDisabled p s = true
  · simp [clickAt, hrd] at h
  · simp only [clickAt, hrd, Bool.not_eq_true, if_false, reduceIte] at h ⊢
    by_cases hc : (!s.isCooldown && p.hasOnClick) = true
    · simp only [handleClick, hc, if_true, reduceIte]
      exact ⟨rfl, by simp [renderedDisabled], rfl⟩
    · simp [handleClick, hc] at h

/-- Concrete instantiation of `cooldown_button_spec`: default cooldown,
handler supplied, not disabled; clicks at 0, 500 and 1000 invoke the
handler exactly at 0 and 1000 — the click at 500 lands inside the first
cooldown window. -/
theorem cooldown_button_spec_witness :
    runClicks { cooldownOpt := none, hasOnClick := true, disabledProp := false }
      CooldownState.init [0, 500, 1000] = [0, 1000] ∧
    cooldownMs { cooldownOpt := none, hasOnClick := true, disabledProp := false } = 1000 := by
  have h := cooldown_button_spec
    { cooldownOpt := none, hasOnClick := true, disabledProp := false } [0, 500, 1000]
  refine ⟨(h.2.2.1 rfl rfl).trans (by decide), h.1 rfl⟩

/-- One registered listener of the `EventEmitter` of `src/unnamed/part_034`
(the `ListenerHolder` interface): the listener function and the context are
opaque `Nat` identities; `ctx = none` models the `context || emitter`
fallback to the emitter itself; `once` marks one-shot listeners. -/
structure Holder where
  fn : Nat
  ctx : Option Nat
  once : Bool
  deriving Repr, DecidableEq

/-- The value stored under an event name in `_events`: either a bare
holder (it has an `fn` property) or an array of holders. -/
inductive Handlers where
  | single (h : Holder)
  | many (hs : List Holder)
  deriving Repr, DecidableEq

/-- The `_events` object, as an insertion-ordered association list with
(like a JS object) distinct keys; event names are `Nat` identities. -/
abbrev EventsMap : Type := List (Nat × Handlers)

/-- Lookup `emitter._events[evt]`. -/
def lookupEvt : EventsMap → Nat → Option Handlers
  | [], _ => none
  | (k, h) :: rest, evt => if k = evt then some h else lookupEvt rest evt

/-- Assignment `emitter._events[evt] = v`: replace in place if the key
exists, append (JS insertion order) otherwise. -/
def setEvt : EventsMap → Nat → Handlers → EventsMap
  | [], evt, v => [(evt, v)]
  | (k, h) :: rest, evt, v =>
    if k = evt then (evt, v) :: rest else (k, h) :: setEvt rest evt v

/-- Deletion `delete emitter._events[evt]`. -/
def deleteEvt : EventsMap → Nat → EventsMap
  | [], _ => []
  | (k, h) :: rest, evt =>
    if k = evt then deleteEvt rest evt else (k, h) :: deleteEvt rest evt

/-- The mutable state of an `EventEmitter`: the private `_eventsCount`
counter (an `Int`, since the source decrements it blindly) and `_events`. -/
structure EmitterState where
  eventsCount : Int
  events : EventsMap
  deriving Repr, DecidableEq

/-- A freshly constructed emitter. -/
def EmitterState.initial : EmitterState :=
  { eventsCount := 0, events := [] }

/-- Embedding of the helper `addListener_(emitter, event, fn, context,
once)` (part_034 lines 26-52).  The `typeof fn !== 'function'` guard never
fires in the model, where every listener identity is a function. -/
def addListener_ (e : EmitterState) (evt : Nat) (fn : Nat) (ctx : Option Nat)
    (once : Bool) : EmitterState :=
  let listener : Holder := { fn := fn, ctx := ctx, once := once }
  match lookupEvt e.events evt with
  | none =>
    { eventsCount := e.eventsCount + 1,
      events := setEvt e.events evt (Handlers.single listener) }
  | some (Handlers.single h0) =>
    { e with events := setEvt e.events evt (Handlers.many [h0, listener]) }
  | some (Handlers.many hs) =>
    { e with events := setEvt e.events evt (Handlers.many (hs ++ [listener])) }

/-- Embedding of the helper `clearEvent_(emitter, evt)` (part_034 lines
60-66): `if (--emitter._eventsCount === 0) emitter._events = {}; else
delete emitter._events[evt];`. -/
def clearEvent_ (e : EmitterState) (evt : Nat) : EmitterState :=
  if e.eventsCount - 1 = 0 then
    { eventsCount := 0, events := [] }
  else
    { eventsCount := e.eventsCount - 1, events := deleteEvt e.events evt }

/-- The `!context || listeners.context === context` test of
`removeListener`: an absent (or falsy) context argument matches anything. -/
def ctxMatches (param : Option Nat) (stored : Option Nat) : Bool :=
  match param with
  | none => true
  | some c => stored = some c

/-- Embedding of `removeListener(event, fn, context, once)` (part_034
lines 304-348).  `fn = none` models a missing listener argument, which
clears the whole event. -/
def removeListener (e : EmitterState) (evt : Nat) (fn : Option Nat)
    (ctx : Option Nat) (once : Bool) : EmitterState :=
  match lookupEvt e.events evt with
  | none => e
  | some listeners =>
    match fn with
    | none => clearEvent_ e evt
    | some f =>
      match listeners with
      | Handlers.single h =>
        if h.fn = f ∧ (!once || h.once) = true ∧ ctxMatches ctx h.ctx = true then
          clearEvent_ e evt
        else e
      | Handlers.many hs =>
        let kept := hs.filter fun h =>
          h.fn ≠ f ∨ (once && !h.once) = true ∨ (ctx.isSome ∧ ctxMatches ctx h.ctx = false)
        match kept with
        | [] => clearEvent_ e evt
        | [h1] => { e with events := setEvt e.events evt (Handlers.single h1) }
        | h1 :: h2 :: t =>
          { e with events := setEvt e.events evt (Handlers.many (h1 :: h2 :: t)) }

/-- Embedding of `emit(event, ...)` (part_034 lines 193-210): returns
whether listeners were registered; every `once` listener in the snapshot
taken at entry is removed via `removeListener(event, fn, undefined, true)`.
The listener calls themselves are external and do not touch the emitter. -/
def emit (e : EmitterState) (evt : Nat) : Bool × EmitterState :=
  match lookupEvt e.events evt with
  | none => (false, e)
  | some (Handlers.single h) =>
    (true, if h.once then removeListener e evt (some h.fn) none true else e)
  | some (Handlers.many hs) =>
    (true, hs.foldl (fun acc h =>
      if h.once then removeListener acc evt (some h.fn) none true else acc) e)

/-- Embedding of `on` / its alias `addListener` (part_034 lines 229-257);
the returned unsubscribe closure is not part of the state. -/
def onEvt (e : EmitterState) (evt : Nat) (fn : Nat) (ctx : Option Nat) : EmitterState :=
  addListener_ e evt fn ctx false

/-- Embedding of `once` (part_034 lines 276-285). -/
def onceEvt (e : EmitterState) (evt : Nat) (fn : Nat) (ctx : Option Nat) : EmitterState :=
  addListener_ e evt fn ctx true

/-- Embedding of `off`, the alias of `removeListener` (part_034 lines
359-366). -/
def offEvt (e : EmitterState) (evt : Nat) (fn : Option Nat) (ctx : Option Nat)
    (once : Bool) : EmitterState :=
  removeListener e evt fn ctx once

/-- Embedding of `removeAllListeners(event?)` (part_034 lines 380-392). -/
def removeAllListeners (e : EmitterState) (evt : Option Nat) : EmitterState :=
  match evt with
  | some evt =>
    match lookupEvt e.events evt with
    | some _ => clearEvent_ e evt
    | none => e
  | none => { eventsCount := 0, events := [] }

/-- Number of listeners a `Handlers` value stores. -/
def handlersCount : Handlers → Nat
  | Handlers.single _ => 1
  | Handlers.many hs => hs.length

/-- Embedding of `listenerCount(event)` (part_034 lines 171-176). -/
def listenerCount (e : EmitterState) (evt : Nat) : Nat :=
  match lookupEvt e.events evt with
  | none => 0
  | some listeners => handlersCount listeners

/-- Embedding of `eventNames()` (part_034 lines 108-125): the empty list
when `_eventsCount === 0`, otherwise the own keys of `_events` in
insertion order. -/
def eventNames (e : EmitterState) : List Nat :=
  if e.eventsCount = 0 then [] else e.events.map Prod.fst

/-- The public operations of the emitter, for quantifying over call
sequences (`on` and `addListener` are the same code, as are
`removeListener` and `off`; both aliases are still distinguished here). -/
inductive EmitterOp where
  | on (evt fn : Nat) (ctx : Option Nat)
  | addListener (evt fn : Nat) (ctx : Option Nat)
  | once (evt fn : Nat) (ctx : Option Nat)
  | emit (evt : Nat)
  | removeListener (evt : Nat) (fn : Option Nat) (ctx : Option Nat) (once : Bool)
  | off (evt : Nat) (fn : Option Nat) (ctx : Option Nat) (once : Bool)
  | removeAll (evt : Option Nat)
  deriving Repr, DecidableEq

/-- Apply one public operation. -/
def applyOp (e : EmitterState) : EmitterOp → EmitterState
  | EmitterOp.on evt fn ctx => onEvt e evt fn ctx
  | EmitterOp.addListener evt fn ctx => onEvt e evt fn ctx
  | EmitterOp.once evt fn ctx => onceEvt e evt fn ctx
  | EmitterOp.emit evt => (emit e evt).2
  | EmitterOp.removeListener evt fn ctx once => removeListener e evt fn ctx once
  | EmitterOp.off evt fn ctx once => offEvt e evt fn ctx once
  | EmitterOp.removeAll evt => removeAllListeners e evt

/-- Run a sequence of public operations from a state. -/
def runOps (e : EmitterState) : List EmitterOp → EmitterState
  | [] => e
  | op :: ops => runOps (applyOp e op) ops

theorem lookupEvt_eq_none (l : EventsMap) (evt : Nat) :
    lookupEvt l evt = none ↔ evt ∉ l.map Prod.fst := by
  induction l with
  | nil => simp [lookupEvt]
  | cons p rest ih =>
    obtain ⟨k, h⟩ := p
    by_cases hk : k = evt
    · subst hk
      simp [lookupEvt]
    · simp [lookupEvt, hk, ih, Ne.symm hk]

theorem lookupEvt_mem (l : EventsMap) (evt : Nat) (w : Handlers)
    (h : lookupEvt l evt = some w) : (evt, w) ∈ l := by
  induction l with
  | nil => simp [lookupEvt] at h
  | cons p rest ih =>
    obtain ⟨k, v⟩ := p
    by_cases hk : k = evt
    · subst hk
      simp [lookupEvt] at h
      simp [h]
    · simp [lookupEvt, hk] at h
      exact List.mem_cons_of_mem _ (ih h)

theorem lookupEvt_isSome_iff (l : EventsMap) (evt : Nat) :
    (lookupEvt l evt).isSome = true ↔ evt ∈ l.map Prod.fst := by
  constructor
  · intro hs
    rcases h : lookupEvt l evt with _ | w
    · rw [h] at hs
      simp at hs
    · exact List.mem_map.mpr ⟨(evt, w), lookupEvt_mem l evt w h, rfl⟩
  · intro hmem
    rcases h : lookupEvt l evt with _ | w
    · exact absurd hmem ((lookupEvt_eq_none l evt).mp h)
    · simp

theorem setEvt_of_lookup_none (l : EventsMap) (evt : Nat) (v : Handlers)
    (h : lookupEvt l evt = none) : setEvt l evt v = l ++ [(evt, v)] := by
  induction l with
  | nil => rfl
  | cons p rest ih =>
    obtain ⟨k, w⟩ := p
    by_cases hk : k = evt
    · simp [lookupEvt, hk] at h
    · simp [lookupEvt, hk] at h
      simp [setEvt, hk, ih h]

theorem setEvt_map_fst (l : EventsMap) (evt : Nat) (v : Handlers)
    (h : evt ∈ l.map Prod.fst) : (setEvt l evt v).map Prod.fst = l.map Prod.fst := by
  induction l with
  | nil => simp at h
  | cons p rest ih =>
    obtain ⟨k, w⟩ := p
    by_cases hk : k = evt
    · simp [setEvt, hk]
    · have : evt ∈ rest.map Prod.fst := by
        simp at h
        rcases h with h | h
        · exact absurd h.symm hk
        · simpa using h
      simp [setEvt, hk, ih this]

theorem setEvt_length (l : EventsMap) (evt : Nat) (v : Handlers)
    (h : evt ∈ l.map Prod.fst) : (setEvt l evt v).length = l.length := by
  have := setEvt_map_fst l evt v h
  calc (setEvt l evt v).length = ((setEvt l evt v).map Prod.fst).length := by simp
    _ = (l.map Prod.fst).length := by rw [this]
    _ = l.length := by simp

theorem mem_setEvt (l : EventsMap) (evt : Nat) (v : Handlers) (p : Nat × Handlers)
    (hp : p ∈ setEvt l evt v) : p = (evt, v) ∨ p ∈ l := by
  induction l with
  | nil => simpa [setEvt] using hp
  | cons q rest ih =>
    obtain ⟨k, w⟩ := q
    by_cases hk : k = evt
    · simp [setEvt, hk] at hp
      rcases hp with hp | hp
      · exact Or.inl hp
      · exact Or.inr (List.mem_cons_of_mem _ hp)
    · simp only [setEvt, hk, if_false, List.mem_cons, reduceIte] at hp
      rcases hp with hp | hp
      · exact Or.inr (by simp [hp])
      · rcases ih hp with h | h
        · exact Or.inl h
        · exact Or.inr (List.mem_cons_of_mem _ h)

theorem deleteEvt_of_not_mem (l : EventsMap) (evt : Nat)
    (h : evt ∉ l.map Prod.fst) : deleteEvt l evt = l := by
  induction l with
  | nil => rfl
  | cons p rest ih =>
    obtain ⟨k, w⟩ := p
    simp at h
    push_neg at h
    have hk : k ≠ evt := fun he => (h.1 he.symm)
    simp [deleteEvt, hk, ih (by simpa using h.2)]

theorem deleteEvt_map_fst (l : EventsMap) (evt : Nat) :
    (deleteEvt l evt).map Prod.fst = (l.map Prod.fst).filter (fun k => k ≠ evt) := by
  induction l with
  | nil => rfl
  | cons p rest ih =>
    obtain ⟨k, w⟩ := p
    by_cases hk : k = evt <;> simp [deleteEvt, hk, ih, List.filter_cons]

theorem mem_deleteEvt (l : EventsMap) (evt : Nat) (p : Nat × Handlers)
    (hp : p ∈ deleteEvt l evt) : p ∈ l := by
  induction l with
  | nil => simp [deleteEvt] at hp
  | cons q rest ih =>
    obtain ⟨k, w⟩ := q
    by_cases hk : k = evt
    · simp only [deleteEvt, hk, if_true, reduceIte] at hp
      exact List.mem_cons_of_mem _ (ih hp)
    · simp only [deleteEvt, hk, if_false, List.mem_cons, reduceIte] at hp
      rcases hp with hp | hp
      · simp [hp]
      · exact List.mem_cons_of_mem _ (ih hp)

theorem deleteEvt_length (l : EventsMap) (evt : Nat)
    (hmem : evt ∈ l.map Prod.fst) (hnd : (l.map Prod.fst).Nodup) :
    (deleteEvt l evt).length + 1 = l.length := by
  induction l with
  | nil => simp at hmem
  | cons p rest ih =>
    obtain ⟨k, w⟩ := p
    simp only [List.map_cons, List.nodup_cons] at hnd
    by_cases hk : k = evt
    · subst hk
      have : deleteEvt rest k = rest := deleteEvt_of_not_mem rest k hnd.1
      simp [deleteEvt, this]
    · have hmem' : evt ∈ rest.map Prod.fst := by
        simp at hmem
        rcases hmem with h | h
        · exact absurd h.symm hk
        · simpa using h
      have hrec := ih hmem' hnd.2
      simp only [deleteEvt, hk, if_false, List.length_cons, reduceIte]
      omega

/-- Shape invariant of a stored `Handlers` value: arrays in `_events` are
never empty (the code replaces an emptied array by `clearEvent_`). -/
def HandlersWF : Handlers → Prop
  | Handlers.single _ => True
  | Handlers.many hs => hs ≠ []

/-- The bookkeeping invariant of the emitter: `_eventsCount` equals the
number of keys of `_events`, the keys are distinct (a JS object), and
every stored value holds at least one listener. -/
def EmitterWF (e : EmitterState) : Prop :=
  e.eventsCount = (e.events.length : Int) ∧
  (e.events.map Prod.fst).Nodup ∧
  ∀ p ∈ e.events, HandlersWF p.2

theorem setEvt_WF (e : EmitterState) (evt : Nat) (v : Handlers) (w : Handlers)
    (hl : lookupEvt e.events evt = some w) (hv : HandlersWF v) (h : EmitterWF e) :
    EmitterWF { e with events := setEvt e.events evt v } := by
  obtain ⟨hcnt, hnd, hh⟩ := h
  have hmem : evt ∈ e.events.map Prod.fst :=
    (lookupEvt_isSome_iff _ _).mp (by simp [hl])
  refine ⟨?_, ?_, ?_⟩
  · simpa [setEvt_length e.events evt v hmem] using hcnt
  · simpa [setEvt_map_fst e.events evt v hmem] using hnd
  · intro p hp
    rcases mem_setEvt e.events evt v p hp with hcase | hcase
    · rw [hcase]
      exact hv
    · exact hh p hcase

theorem clearEvent_WF (e : EmitterState) (evt : Nat)
    (hl : (lookupEvt e.events evt).isSome = true) (h : EmitterWF e) :
    EmitterWF (clearEvent_ e evt) := by
  obtain ⟨hcnt, hnd, hh⟩ := h
  have hmem := (lookupEvt_isSome_iff _ _).mp hl
  unfold clearEvent_
  by_cases hz : e.eventsCount - 1 = 0
  · simp only [hz, if_true, reduceIte]
    exact ⟨by simp, by simp, by simp⟩
  · simp only [hz, if_false, reduceIte]
    have hlen := deleteEvt_length e.events evt hmem hnd
    refine ⟨?_, ?_, ?_⟩
    · simp only
      omega
    · simpa [deleteEvt_map_fst] using hnd.filter _
    · intro p hp
      exact hh p (mem_deleteEvt _ _ _ hp)

theorem removeListener_WF (e : EmitterState) (evt : Nat) (fn : Option Nat)
    (ctx : Option Nat) (once : Bool) (h : EmitterWF e) :
    EmitterWF (removeListener e evt fn ctx once) := by
  unfold removeListener
  rcases hl : lookupEvt e.events evt with _ | w
  · exact h
  · have hsome : (lookupEvt e.events evt).isSome = true := by simp [hl]
    rcases fn with _ | f
    · exact clearEvent_WF e evt hsome h
    · cases w with
      | single h0 =>
        by_cases hcond : h0.fn = f ∧ (!once || h0.once) = true ∧ ctxMatches ctx h0.ctx = true
        · simp only [hcond, if_true, reduceIte]
          exact clearEvent_WF e evt hsome h
        · simp only [hcond, if_false, reduceIte]
          exact h
      | many hs =>
        simp only
        split
        · exact clearEvent_WF e evt hsome h
        · exact setEvt_WF e evt (Handlers.single _) (Handlers.many hs) hl trivial h
        · exact setEvt_WF e evt (Handlers.many _) (Handlers.many hs) hl
            (by simp [HandlersWF]) h

theorem emit_foldl_WF (evt : Nat) (hs : List Holder) :
    ∀ acc : EmitterState, EmitterWF acc →
      EmitterWF (hs.foldl (fun acc h =>
        if h.once then removeListener acc evt (some h.fn) none true else acc) acc) := by
  induction hs with
  | nil => exact fun acc h => h
  | cons hd tl ih =>
    intro acc h
    simp only [List.foldl_cons]
    apply ih
    by_cases ho : hd.once
    · simpa [ho] using removeListener_WF acc evt (some hd.fn) none true h
    · simpa [ho] using h

theorem emit_WF (e : EmitterState) (evt : Nat) (h : EmitterWF e) :
    EmitterWF (emit e evt).2 := by
  unfold emit
  rcases hl : lookupEvt e.events evt with _ | w
  · exact h
  · cases w with
    | single h0 =>
      by_cases ho : h0.once
      · simpa [ho] using removeListener_WF e evt (some h0.fn) none true h
      · simpa [ho] using h
    | many hs => exact emit_foldl_WF evt hs e h

theorem removeAllListeners_WF (e : EmitterState) (evt : Option Nat) (h : EmitterWF e) :
    EmitterWF (removeAllListeners e evt) := by
  rcases evt with _ | evt
  · exact ⟨by simp [removeAllListeners], by simp [removeAllListeners],
      by simp [removeAllListeners]⟩
  · rcases hl : lookupEvt e.events evt with _ | w
    · simpa [removeAllListeners, hl] using h
    · simpa [removeAllListeners, hl] using clearEvent_WF e evt (by simp [hl]) h

theorem addListener_WF (e : EmitterState) (evt fn : Nat) (ctx : Option Nat)
    (once : Bool) (h : EmitterWF e) : EmitterWF (addListener_ e evt fn ctx once) := by
  obtain ⟨hcnt, hnd, hh⟩ := h
  unfold addListener_
  rcases hl : lookupEvt e.events evt with _ | w
  · have hset := setEvt_of_lookup_none e.events evt
      (Handlers.single { fn := fn, ctx := ctx, once := once }) hl
    have hnotmem : evt ∉ e.events.map Prod.fst := (lookupEvt_eq_none _ _).mp hl
    refine ⟨?_, ?_, ?_⟩
    · simp only [hset, List.length_append, List.length_cons, List.length_nil]
      push_cast
      omega
    · simp only [hset, List.map_append, List.map_cons, List.map_nil]
      exact hnd.append (List.nodup_singleton evt)
        (fun a ha hb => by simp at hb; subst hb; exact hnotmem ha)
    · intro p hp
      simp only [hset, List.mem_append, List.mem_singleton] at hp
      rcases hp with hp | hp
      · exact hh p hp
      · rw [hp]
        exact trivial
  · cases w with
    | single h0 =>
      exact setEvt_WF e evt
        (Handlers.many [h0, { fn := fn, ctx := ctx, once := once }])
        (Handlers.single h0) hl (by simp [HandlersWF]) ⟨hcnt, hnd, hh⟩
    | many hs =>
      exact setEvt_WF e evt
        (Handlers.many (hs ++ [{ fn := fn, ctx := ctx, once := once }]))
        (Handlers.many hs) hl (by simp [HandlersWF]) ⟨hcnt, hnd, hh⟩

theorem applyOp_WF (e : EmitterState) (op : EmitterOp) (h : EmitterWF e) :
    EmitterWF (applyOp e op) :=
  match op with
  | EmitterOp.on evt fn ctx => addListener_WF e evt fn ctx false h
  | EmitterOp.addListener evt fn ctx => addListener_WF e evt fn ctx false h
  | EmitterOp.once evt fn ctx => addListener_WF e evt fn ctx true h
  | EmitterOp.emit evt => emit_WF e evt h
  | EmitterOp.removeListener evt fn ctx once => removeListener_WF e evt fn ctx once h
  | EmitterOp.off evt fn ctx once => removeListener_WF e evt fn ctx once h
  | EmitterOp.removeAll evt => removeAllListeners_WF e evt h

theorem runOps_WF (ops : List EmitterOp) :
    ∀ e : EmitterState, EmitterWF e → EmitterWF (runOps e ops) := by
  induction ops with
  | nil => exact fun e h => h
  | cons op ops ih => exact fun e h => ih (applyOp e op) (applyOp_WF e op h)

theorem initial_WF : EmitterWF EmitterState.initial :=
  ⟨by simp [EmitterState.initial], by simp [EmitterState.initial],
    by simp [EmitterState.initial]⟩

theorem listenerCount_pos_iff (e : EmitterState) (h : EmitterWF e) (n : Nat) :
    1 ≤ listenerCount e n ↔ (lookupEvt e.events n).isSome = true := by
  rcases hl : lookupEvt e.events n with _ | w
  · simp [listenerCount, hl]
  · simp only [listenerCount, hl, Option.isSome_some, iff_true]
    have hwf := h.2.2 (n, w) (lookupEvt_mem _ _ _ hl)
    cases w with
    | single h0 => simp [handlersCount]
    | many hs =>
      simp only [handlersCount]
      have : hs ≠ [] := hwf
      exact List.length_pos.mpr this

theorem emit_fst_eq (e : EmitterState) (n : Nat) :
    (emit e n).1 = (lookupEvt e.events n).isSome := by
  unfold emit
  rcases hl : lookupEvt e.events n with _ | w
  · simp
  · cases w <;> simp

theorem emitterWF_consequences (e : EmitterState) (h : EmitterWF e) :
    e.eventsCount =
      (((e.events.filter fun p => 0 < handlersCount p.2).length : Nat) : Int) ∧
    ∀ n : Nat,
      (n ∈ eventNames e ↔ 1 ≤ listenerCount e n) ∧
      (n ∉ eventNames e → listenerCount e n = 0) ∧
      ((emit e n).1 = true ↔ 1 ≤ listenerCount e n) := by
  obtain ⟨hcnt, hnd, hh⟩ := h
  have hfilter : (e.events.filter fun p => 0 < handlersCount p.2) = e.events := by
    apply List.filter_eq_self.mpr
    intro p hp
    have hwf := hh p hp
    cases hv : p.2 with
    | single h0 => simp [handlersCount, hv]
    | many hs =>
      rw [hv] at hwf
      simp only [handlersCount, hv, decide_eq_true_eq]
      exact List.length_pos.mpr hwf
  have hmemiff : ∀ n : Nat, n ∈ eventNames e ↔ 1 ≤ listenerCount e n := by
    intro n
    by_cases hz : e.eventsCount = 0
    · have hlen : e.events.length = 0 := by
        rw [hz] at hcnt
        exact_mod_cast hcnt.symm
      have hevents : e.events = [] := List.length_eq_zero.mp hlen
      simp [eventNames, hz, hevents, listenerCount, lookupEvt]
    · rw [listenerCount_pos_iff e ⟨hcnt, hnd, hh⟩ n, lookupEvt_isSome_iff]
      simp [eventNames, hz]
  refine ⟨by rw [hfilter]; exact hcnt, fun n => ⟨hmemiff n, ?_, ?_⟩⟩
  · intro hnot
    rcases Nat.eq_zero_or_pos (listenerCount e n) with hzero | hpos
    · exact hzero
    · exact absurd ((hmemiff n).mpr hpos) hnot
  · rw [emit_fst_eq]
    exact (listenerCount_pos_iff e ⟨hcnt, hnd, hh⟩ n).symm

/-- Claim C9: after any sequence of `on`, `once`, `addListener`, `emit`,
`removeListener`, `off` and `removeAllListeners` operations starting from
a fresh emitter, `_eventsCount` equals the number of event names with at
least one registered listener in `_events`; consequently `eventNames()`
lists exactly the events with `listenerCount ≥ 1`, every other event has
`listenerCount = 0`, and `emit(e)` reports `true` exactly when a listener
was registered for `e` at the time of the call. -/
theorem eventemitter_bookkeeping_invariant (ops : List EmitterOp) :
    (runOps EmitterState.initial ops).eventsCount =
      (((runOps EmitterState.initial ops).events.filter
        fun p => 0 < handlersCount p.2).length : Int) ∧
    ∀ n : Nat,
      (n ∈ eventNames (runOps EmitterState.initial ops) ↔
        1 ≤ listenerCount (runOps EmitterState.initial ops) n) ∧
      (n ∉ eventNames (runOps EmitterState.initial ops) →
        listenerCount (runOps EmitterState.initial ops) n = 0) ∧
      ((emit (runOps EmitterState.initial ops) n).1 = true ↔
        1 ≤ listenerCount (runOps EmitterState.initial ops) n) :=
  emitterWF_consequences (runOps EmitterState.initial ops)
    (runOps_WF ops EmitterState.initial initial_WF)

/-- The event name used by `Closables` for its `closed` event. -/
def closedEvt : Nat := 0

/-- State of a `Closables` instance (event-utils.ts lines 186-520): the
`#store` Set of cleanup functions — a `Nodup` list in insertion order,
functions being opaque `Nat` identities — and the `#events` emitter.  The
lazily created RxJS `#closeTrigger$` subject does not interact with the
store or the emitter and is not modelled. -/
structure Closables where
  store : List Nat
  events : EmitterState
  deriving Repr, DecidableEq

/-- A `new Closables()`. -/
def closablesInit : Closables :=
  { store := [], events := EmitterState.initial }

/-- `Set.prototype.add`: appends only if absent. -/
def storeAdd (st : List Nat) (f : Nat) : List Nat :=
  if f ∈ st then st else st ++ [f]

/-- Embedding of `add(...closables)` (event-utils.ts lines 241-246):
`closables.forEach(it => this.#store.add(it))`. -/
def closablesAdd (c : Closables) (fns : List Nat) : Closables :=
  { c with store := fns.foldl storeAdd c.store }

/-- Embedding of the `count` getter (event-utils.ts lines 488-490):
`this.#store.size`. -/
def closablesCount (c : Closables) : Nat :=
  c.store.length

/-- Embedding of `close()` (event-utils.ts lines 506-520): emit `closed`,
remove all listeners, then — if the store is nonempty — call every stored
cleanup once (returned here as the list of called identities, in store
order) and clear the store. -/
def closablesClose (c : Closables) : (Bool × List Nat) × Closables :=
  let em := emit c.events closedEvt
  let ev2 := removeAllListeners em.2 none
  let called := if c.store.length > 0 then c.store else []
  ((em.1, called),
    { store := if c.store.length > 0 then [] else c.store, events := ev2 })

theorem storeAdd_nodup (st : List Nat) (f : Nat) (h : st.Nodup) :
    (storeAdd st f).Nodup := by
  unfold storeAdd
  by_cases hf : f ∈ st
  · simpa [hf] using h
  · simp only [hf, if_false, reduceIte]
    exact h.append (List.nodup_singleton f)
      (fun a ha hb => by simp at hb; subst hb; exact hf ha)

theorem foldl_storeAdd_nodup (fns : List Nat) :
    ∀ st : List Nat, st.Nodup → (fns.foldl storeAdd st).Nodup := by
  induction fns with
  | nil => exact fun st h => h
  | cons g gs ih => exact fun st h => ih _ (storeAdd_nodup st g h)

/-- Claim C10: the store is a Set, so `add` registers a repeated cleanup
function once and `count` counts distinct functions; `close()` emits
`closed` (reporting whether a listener was registered), removes every
listener before the cleanups run, then calls each registered cleanup
exactly once (the returned called-list is the duplicate-free store) and
empties the store, so a second `close()` calls no cleanup function. -/
theorem closables_close_spec (c : Closables) (fns : List Nat) (f : Nat)
    (hnd : c.store.Nodup) :
    (f ∈ c.store → (closablesAdd c [f]).store = c.store) ∧
    (closablesAdd c fns).store.Nodup ∧
    closablesCount c = c.store.length ∧
    (closablesClose c).1.2 = c.store ∧
    (closablesClose c).1.2.Nodup ∧
    (closablesClose c).2.store = [] ∧
    (closablesClose (closablesClose c).2).1.2 = [] ∧
    listenerCount (closablesClose c).2.events closedEvt = 0 ∧
    eventNames (closablesClose c).2.events = [] ∧
    (closablesClose c).1.1 = (lookupEvt c.events.events closedEvt).isSome := by
  have hcalled : (if c.store.length > 0 then c.store else []) = c.store := by
    by_cases hlen : c.store.length > 0
    · simp [hlen]
    · have : c.store = [] := List.length_eq_zero.mp (by omega)
      simp [hlen, this]
  have hleft : (if c.store.length > 0 then ([] : List Nat) else c.store) = [] := by
    by_cases hlen : c.store.length > 0
    · simp [hlen]
    · have : c.store = [] := List.length_eq_zero.mp (by omega)
      simp [hlen, this]
  refine ⟨?_, ?_, rfl, ?_, ?_, ?_, ?_, rfl, rfl, ?_⟩
  · intro hf
    simp [closablesAdd, storeAdd, hf]
  · exact foldl_storeAdd_nodup fns c.store hnd
  · simp [closablesClose, hcalled]
  · simpa [closablesClose, hcalled] using hnd
  · simp [closablesClose, hleft]
  · simp [closablesClose, hleft]
  · simp [closablesClose, emit_fst_eq]

/-- Concrete instantiation of `closables_close_spec`: a store built by
adding 5, 5 and 7 holds the two distinct functions; close calls exactly
them once, empties the store, reports the registered `closed` listener and
strips it; the second close calls nothing. -/
theorem closables_close_spec_witness :
    (closablesAdd closablesInit [5, 5, 7]).store = [5, 7] ∧
    (closablesClose { store := [5, 7], events := onEvt EmitterState.initial closedEvt 3 none }).1
      = (true, [5, 7]) ∧
    (closablesClose { store := [5, 7], events := onEvt EmitterState.initial closedEvt 3 none }).2.store
      = [] ∧
    (closablesClose (closablesClose
      { store := [5, 7], events := onEvt EmitterState.initial closedEvt 3 none }).2).1.2 = [] ∧
    listenerCount (closablesClose
      { store := [5, 7], events := onEvt EmitterState.initial closedEvt 3 none }).2.events
      closedEvt = 0 := by
  have h := closables_close_spec
    { store := [5, 7], events := onEvt EmitterState.initial closedEvt 3 none } [5, 5, 7] 5
    (by decide)
  refine ⟨by decide, ?_, h.2.2.2.2.2.1, h.2.2.2.2.2.2.1, h.2.2.2.2.2.2.2.1⟩
  have h1 := h.2.2.2.1
  have h2 := h.2.2.2.2.2.2.2.2.2
  have : (closablesClose
      { store := [5, 7], events := onEvt EmitterState.initial closedEvt 3 none }).1.1 = true := by
    rw [h2]; decide
  exact Prod.ext this h1
